import Mathlib

/-!
Verification development for `src/sums.c` (plugd-in/file-sums).

The program partitions an input byte stream into block ranges, forks one
child per range, each child scans its range collecting decimal digits into
a 3-slot buffer and summing every completed 3-digit group, writes a single
fixed-size result record to a pipe, and the parent multiplexes the pipe
read ends with epoll, aggregating the records into a final sum.

This file shallowly embeds the relevant parts of `sums.c`:
  * the per-child digit scan (`handle_stdin` / `handle_file`),
  * the sizing logic of `main` (`--block-size` / `--child-count`),
  * the range computation in `main`'s spawn loop and the integer
    truncations it incurs on the way into `add_child` (int parameters)
    and back into the `u_int64_t` fields of `struct child_info`,
  * `parse_opt`'s validation of `--child-count`,
  * the coordinator/aggregator loop of `main` over epoll read events.

C arithmetic notes: per-child sums and the parent's accumulator are
64-bit in the source (`u_int64_t` / `long`, both accumulating mod 2^64).
They are modelled as `Nat`; every equality proved below is therefore also
an equality modulo 2^64, and every concrete counterexample stays far
below 2^64, so no verdict depends on wraparound of the *sums*.  Wraparound
of the *offsets and counts* does matter and is modelled explicitly:
the `u_int16_t` store into `child_count`, the u64 wrap of
`(i+1)*block_size - 1`, and the `int` parameters of `add_child`.
-/

/-! ### The per-child digit scan (`handle_stdin`, lines 269-308, and the
identical scan loop of `handle_file`, lines 314-343) -/

/-- Test `isdigit(c)` for a byte value `c` read by `fgetc` (ASCII '0'..'9'). -/
def isdigit (c : Nat) : Bool := decide (48 ≤ c ∧ c ≤ 57)

/-- Value of `atoi` on the NUL-terminated buffer holding the digit
characters `l` (most significant first).  In the source the buffer is
`char buf[4] = {0}`; it only ever holds decimal digit characters followed
by the NUL terminator, on which `atoi` computes exactly this fold. -/
def atoiDigits (l : List Nat) : Nat := l.foldl (fun a d => 10 * a + (d - 48)) 0

/-- One iteration of the scan loop body of `handle_stdin`/`handle_file` on
byte `c`.  The state is `(result.sum, buffer)` where `buffer` is the list
of digit characters stored in `buf[0..c_count-1]` since the last reset
(`c_count = buffer.length`; after a reset the stale characters left in the
C array are never read before being overwritten, so the reset is modelled
as the empty buffer). -/
def scanStep (st : Nat × List Nat) (c : Nat) : Nat × List Nat :=
  let buf := if decide (st.2.length < 3) && isdigit c then st.2 ++ [c] else st.2
  if 3 ≤ buf.length then (st.1 + atoiDigits buf, []) else (st.1, buf)

/-- The scan loop run over a byte list from state `st`. -/
def scanFold (st : Nat × List Nat) (bytes : List Nat) : Nat × List Nat :=
  bytes.foldl scanStep st

/-- The sum computed by `handle_stdin` over the whole byte stream
(initial state: `result.sum = 0`, `c_count = 0`). -/
def scanSum (bytes : List Nat) : Nat := (scanFold (0, []) bytes).1

/-- Bytes of a string literal, for concrete test inputs. -/
def strBytes (s : String) : List Nat := s.data.map Char.toNat

/-! ### The reference scan, written from the specification's words
(spec section 4.2): collect the decimal digits in input order, ignoring
non-digits entirely; parse each completed group of three as an unsigned
decimal number and sum the groups; drop a trailing partial group. -/

/-- Modelled from the spec: the subsequence of decimal-digit bytes, in order. -/
def digitsOf (bytes : List Nat) : List Nat := bytes.filter isdigit

/-- Modelled from the spec: sum of the values of the consecutive 3-digit
groups of a digit-character list; a trailing group of fewer than three
digits contributes nothing. -/
def groupSum : List Nat → Nat
  | a :: b :: c :: rest => (100 * (a - 48) + 10 * (b - 48) + (c - 48)) + groupSum rest
  | _ => 0

/-- Modelled from the spec: the reference whole-scan sum. -/
def specScanSum (bytes : List Nat) : Nat := groupSum (digitsOf bytes)

/-! ### Sizing and range computation (`main`, lines 519-546) and child
creation (`add_child`, lines 391-451)

`program_options.child_count` is `u_int16_t` and
`program_options.block_size` is `u_int64_t`, so the assignment
`child_count = st_size / block_size` truncates modulo 2^16 and all range
arithmetic is modulo 2^64.  `add_child` declares `int seek_to, int
read_to`: the `u_int64_t` values from `main` are truncated to a signed
32-bit value at the call (gcc: modular), then sign-extended back into the
`u_int64_t` fields `child_info.seek_to` / `child_info.read_to`. -/

/-- Effective child count computed by `main`: with a block size, `st_size /
block_size` stored into the `u_int16_t` field (truncating mod 2^16);
otherwise the already-stored child count. -/
def mainChildCount (L S C : Nat) : Nat :=
  if 0 < S then (L / S) % 65536 else C

/-- Effective block size computed by `main`: the given block size, or
`st_size / child_count`. -/
def mainBlockSize (L S C : Nat) : Nat :=
  if 0 < S then S else L / C

/-- Seek offset `i * block_size` computed in the spawn loop (u64 math). -/
def mainSeekTo (s i : Nat) : Nat := (i * s) % 2 ^ 64

/-- Read bound computed in the spawn loop: `-1` (as u64, the read-to-end
sentinel) for the last child, else `(i+1)*block_size - 1` in u64
arithmetic (which wraps to the sentinel when `block_size = 0`). -/
def mainReadTo (n s i : Nat) : Nat :=
  if i + 1 = n then 2 ^ 64 - 1 else ((i + 1) * s + (2 ^ 64 - 1)) % 2 ^ 64

/-- Round trip of a u64 offset through `add_child`'s `int` parameter into
the `u_int64_t` field of `struct child_info`: truncation to 32 bits, then
sign extension to 64 bits. -/
def storeU64ViaInt (x : Nat) : Nat :=
  let r := x % 2 ^ 32
  if r < 2 ^ 31 then r else r + (2 ^ 64 - 2 ^ 32)

/-- The fields of `struct child_info` relevant to the scan: identification
number and stored block boundaries (`fds`/`epoll` plumbing omitted). -/
structure ChildInfo where
  child_num : Nat
  seek_to : Nat
  read_to : Nat
deriving DecidableEq

/-- One call of `add_child`: the new child's `child_num` is the number of
children already in the list (the loop walks to the end of the linked
list counting), and the block boundaries pass through the `int`
parameters. -/
def addChild (lst : List ChildInfo) (sk rt : Nat) : List ChildInfo :=
  lst ++ [⟨lst.length, storeU64ViaInt sk, storeU64ViaInt rt⟩]

/-- The spawn loop of `main` (lines 532-546): one `add_child` per index
`0 ≤ i < child_count` with the computed block boundaries. -/
def spawnChildren (n s : Nat) : List ChildInfo :=
  (List.range n).foldl (fun lst i => addChild lst (mainSeekTo s i) (mainReadTo n s i)) []

/-- The per-index value a spawned child ends up with (proved equal to the
spawn loop's output in `spawnChildren_eq`). -/
def childAt (n s i : Nat) : ChildInfo :=
  ⟨i, storeU64ViaInt (mainSeekTo s i), storeU64ViaInt (mainReadTo n s i)⟩

/-- Resolution of the read bound in `child_handler` (lines 365-368): the
stored `read_to` compares equal to `-1` (i.e. equals 2^64-1) exactly when
the child should read to `st_size`. -/
def effectiveReadTo (L rt : Nat) : Nat := if rt = 2 ^ 64 - 1 then L else rt

/-- Whether the file-input child with stored boundaries `sk`/`rt`
(after `effectiveReadTo`) reads the byte at position `p` of a file of
length `L`.  `handle_file` seeks to `sk`, then reads while its position
counter is `≤ rt` and the stream is not at EOF.  When `sk ≥ 2^63` the
initial `fseek` receives a negative `long` offset and fails, leaving the
stream at position 0 while the counter still starts at `sk`; the stream
then delivers byte `p` on the iteration with counter value `sk + p`. -/
def scansPos (L sk rt p : Nat) : Bool :=
  if sk < 2 ^ 63 then decide (sk ≤ p ∧ p ≤ rt ∧ p < L)
  else decide (sk + p ≤ rt ∧ p < L)

/-- Whether a spawned child reads file position `p` (length-`L` input). -/
def childScans (L : Nat) (ci : ChildInfo) (p : Nat) : Bool :=
  scansPos L ci.seek_to (effectiveReadTo L ci.read_to) p

/-- The list of bytes the file-input child actually scans, in order
(consistent with `scansPos`, including the failed-`fseek` regime). -/
def childBytes (content : List Nat) (ci : ChildInfo) : List Nat :=
  let rt := effectiveReadTo content.length ci.read_to
  if ci.seek_to < 2 ^ 63 then (content.drop ci.seek_to).take (rt + 1 - ci.seek_to)
  else content.take (rt + 1 - ci.seek_to)

/-- The result record of `struct child_result` (u16 id + u64 sum; modelled
as `Nat`, see the header note on modular sums). -/
structure ChildResult where
  child_num : Nat
  sum : Nat
deriving DecidableEq

/-- Record written by `handle_file` for a file-input child. -/
def handle_file_result (content : List Nat) (ci : ChildInfo) : ChildResult :=
  ⟨ci.child_num, scanSum (childBytes content ci)⟩

/-- Record written by `handle_stdin`: the whole stream is scanned. -/
def handle_stdin_result (content : List Nat) (child_num : Nat) : ChildResult :=
  ⟨child_num, scanSum content⟩

/-! ### Option parsing (`parse_opt`, lines 145-194)

Only the `--child-count` / `--block-size` validation is core-relevant;
file opening is an external collaborator.  `atoi`'s `int` result is stored
into the `u_int16_t` / `u_int64_t` fields (C modular conversions), and a
stored child count of 0 is rejected with `EINVAL`. -/

/-- The option fields of `struct program_options` used by the core. -/
structure ProgramOptions where
  child_count : Nat
  block_size : Nat
  used_block : Bool
  used_child : Bool
deriving DecidableEq

/-- Defaults of the `program_options` global (lines 129-139). -/
def defaultOptions : ProgramOptions := ⟨1, 0, false, false⟩

/-- The `CHILD_COUNT` case of `parse_opt` on `atoi` result `v`: error if
`--block-size` was used; store `v` into the `u_int16_t` field (mod 2^16);
error if the stored count is 0. -/
def parse_child_count (o : ProgramOptions) (v : Int) : Except Unit ProgramOptions :=
  if o.used_block then Except.error ()
  else
    let cc : Nat := (v.emod 65536).toNat
    if cc = 0 then Except.error ()
    else Except.ok { o with child_count := cc, used_child := true }

/-- The `BLOCK_SIZE` case of `parse_opt` on `atoi` result `v`: error if
`--child-count` was used; store `v` into the `u_int64_t` field. -/
def parse_block_size (o : ProgramOptions) (v : Int) : Except Unit ProgramOptions :=
  if o.used_child then Except.error ()
  else Except.ok { o with block_size := (v.emod (2 ^ 64)).toNat, used_block := true }

/-! ### The stdin special case of `main` (lines 486-504) -/

/-- Warnings printed to stderr when stdin is combined with `--block-size`
or with a child count above 1. -/
def stdinWarnings (o : ProgramOptions) : List String :=
  (if o.block_size ≠ 0 then
      ["Warn: using stdin... ignoring block size " ++ toString o.block_size ++ "."]
    else []) ++
  (if 1 < o.child_count then
      ["Warn: using stdin... ignoring child count " ++ toString o.child_count ++ "."]
    else [])

/-- The overrides applied for stdin input: block size zeroed, child count
forced down to 1.  For stdin no `stat` is performed, so `_stat_buf` keeps
its zero initialization and the later sizing sees `st_size = 0`. -/
def stdinAdjust (o : ProgramOptions) : ProgramOptions :=
  { o with
    block_size := 0,
    child_count := if 1 < o.child_count then 1 else o.child_count }

/-! ### The coordinator/aggregator loop (`main`, lines 550-583)

Each pipe read end fires exactly one epoll event (it is deregistered
whatever happens), so a run of the loop is determined by the sequence of
read outcomes in arrival order.  `read` returns `-1` on error, `0` on a
closed-and-empty pipe, and otherwise the number of bytes read, up to
`sizeof(struct child_result)`; on a short read the tail of the local
`result` struct simply keeps its indeterminate stack contents, modelled
here by letting the event carry an arbitrary record. -/

/-- Size in bytes of `struct child_result` on LP64 (u16 + 6 bytes padding
+ u64). -/
def resultRecordSize : Nat := 16

/-- One epoll readiness event, as the coordinator observes it: the return
value of `read` and the contents of the `result` struct after the read. -/
structure ReadEvent where
  bytes : Int
  res : ChildResult
deriving DecidableEq

/-- Whether the coordinator's `bytes > 0` test accepts the event. -/
def posRead (e : ReadEvent) : Bool := decide (0 < e.bytes)

/-- Coordinator state: `final_sum`, `waiting_for`, and the report lines
written so far. -/
structure CoordState where
  final_sum : Nat
  waiting_for : Nat
  output : List String
deriving DecidableEq

/-- The per-worker report line, `"Child %d Sum: %lu"`. -/
def childLine (r : ChildResult) : String :=
  "Child " ++ toString r.child_num ++ " Sum: " ++ toString r.sum

/-- One iteration of the coordinator loop on one event.  The loop guard
`waiting_for > 0` is checked first; when it fails the loop has exited and
later events are never consumed.  On `bytes > 0` the record is reported
and accumulated and `waiting_for` drops by one; otherwise the channel is
merely deregistered and the state is unchanged. -/
def coordStep (st : CoordState) (ev : ReadEvent) : CoordState :=
  if st.waiting_for = 0 then st
  else if 0 < ev.bytes then
    ⟨st.final_sum + ev.res.sum, st.waiting_for - 1, st.output ++ [childLine ev.res]⟩
  else st

/-- The coordinator loop over the events of a run, starting from
`final_sum = 0` and `waiting_for = n` (the spawned child count). -/
def coordRun (n : Nat) (evs : List ReadEvent) : CoordState :=
  evs.foldl coordStep ⟨0, n, []⟩

/-- The loop terminates (instead of blocking forever in `epoll_wait`)
exactly when every worker has been accounted for. -/
def coordTerminates (n : Nat) (evs : List ReadEvent) : Prop :=
  (coordRun n evs).waiting_for = 0

instance (n : Nat) (evs : List ReadEvent) : Decidable (coordTerminates n evs) := by
  unfold coordTerminates
  infer_instance

/-- Events of a run in which each listed record is delivered in full, in
list order. -/
def fullRecordEvents (rs : List ChildResult) : List ReadEvent :=
  rs.map (fun r => ⟨(resultRecordSize : Int), r⟩)

/-- The stdout lines of a run after option handling: the `File size` line
for a seekable input, the coordinator's per-worker lines, and — only if
the loop terminates — the `Final Sum` line. -/
def runStdout (stdinSrc : Bool) (L n : Nat) (evs : List ReadEvent) : List String :=
  (if stdinSrc then [] else ["File size: " ++ toString L]) ++
    (coordRun n evs).output ++
    (if (coordRun n evs).waiting_for = 0 then
        ["Final Sum: " ++ toString (coordRun n evs).final_sum]
      else [])

/-! ### Helper lemmas -/

theorem groupSum_cons3 (a b c : Nat) (l : List Nat) :
    groupSum (a :: b :: c :: l) = (100 * (a - 48) + 10 * (b - 48) + (c - 48)) + groupSum l := rfl

theorem groupSum_short (l : List Nat) (h : l.length < 3) : groupSum l = 0 := by
  rcases l with _ | ⟨a, _ | ⟨b, _ | ⟨c, rest⟩⟩⟩
  · rfl
  · rfl
  · rfl
  · simp only [List.length_cons] at h
    omega

theorem atoiDigits_three (a b c : Nat) :
    atoiDigits [a, b, c] = 100 * (a - 48) + 10 * (b - 48) + (c - 48) := by
  simp [atoiDigits, List.foldl]
  ring

/-- The scan loop, started in a reachable state (partial buffer of fewer
than three digit characters), computes the accumulated sum plus the group
sum of the pending digits followed by the digits still to come. -/
theorem scanFold_spec (bytes : List Nat) : ∀ (s : Nat) (buf : List Nat),
    buf.length < 3 → (∀ d ∈ buf, isdigit d = true) →
    (scanFold (s, buf) bytes).1 = s + groupSum (buf ++ digitsOf bytes) := by
  induction bytes with
  | nil =>
      intro s buf hlen _
      simp [scanFold, digitsOf, groupSum_short buf hlen]
  | cons c rest ih =>
      intro s buf hlen hdig
      show (scanFold (scanStep (s, buf) c) rest).1 = _
      by_cases hd : isdigit c = true
      · cases buf with
        | nil =>
          have hstep : scanStep (s, ([] : List Nat)) c = (s, [c]) := by
            simp [scanStep, hd]
          rw [hstep, ih s [c] (by simp) (by simpa using hd)]
          simp [digitsOf, List.filter_cons, hd]
        | cons a tl =>
          cases tl with
          | nil =>
            have hstep : scanStep (s, [a]) c = (s, [a, c]) := by
              simp [scanStep, hd]
            have hdig2 : ∀ d ∈ [a, c], isdigit d = true := by
              intro d hdm
              simp only [List.mem_cons, List.not_mem_nil, or_false] at hdm
              rcases hdm with h1 | h1
              · rw [h1]; exact hdig a (by simp)
              · rw [h1]; exact hd
            rw [hstep, ih s [a, c] (by simp) hdig2]
            simp [digitsOf, List.filter_cons, hd]
          | cons b tl2 =>
            cases tl2 with
            | nil =>
              have hstep : scanStep (s, [a, b]) c = (s + atoiDigits [a, b, c], []) := by
                simp [scanStep, hd]
              rw [hstep, ih (s + atoiDigits [a, b, c]) [] (by simp) (by simp)]
              simp [digitsOf, List.filter_cons, hd, groupSum_cons3, atoiDigits_three]
              omega
            | cons e tl3 =>
              simp only [List.length_cons] at hlen
              omega
      · have hd' : isdigit c = false := by simpa using hd
        have hstep : scanStep (s, buf) c = (s, buf) := by
          simp [scanStep, hd']
          intro h3
          omega
        rw [hstep, ih s buf hlen hdig]
        simp [digitsOf, List.filter_cons, hd']

/-- The code's scan agrees with the spec's reference scan on every input. -/
theorem scanSum_eq_spec (bytes : List Nat) : scanSum bytes = specScanSum bytes := by
  have h := scanFold_spec bytes 0 [] (by simp) (by simp)
  simpa [scanSum, specScanSum] using h

theorem pow31 : (2 : Nat) ^ 31 = 2147483648 := by norm_num
theorem pow32 : (2 : Nat) ^ 32 = 4294967296 := by norm_num
theorem pow63 : (2 : Nat) ^ 63 = 9223372036854775808 := by norm_num
theorem pow64 : (2 : Nat) ^ 64 = 18446744073709551616 := by norm_num

/-- Offsets below 2^31 survive the `int` round trip unchanged. -/
theorem storeU64ViaInt_id (x : Nat) (h : x < 2 ^ 31) : storeU64ViaInt x = x := by
  have h32 : x < 2 ^ 32 := by rw [pow32]; rw [pow31] at h; omega
  have h1 : x % 2 ^ 32 = x := Nat.mod_eq_of_lt h32
  unfold storeU64ViaInt
  rw [h1, if_pos h]

/-- The `-1` sentinel survives the `int` round trip unchanged. -/
theorem storeU64ViaInt_sentinel : storeU64ViaInt (2 ^ 64 - 1) = 2 ^ 64 - 1 := by decide

/-- Computing `m - 1` by adding `-1` in u64 arithmetic, for `1 ≤ m < 2^64`. -/
theorem u64_sub_one (m : Nat) (h1 : 1 ≤ m) (h2 : m < 2 ^ 64) :
    (m + (2 ^ 64 - 1)) % 2 ^ 64 = m - 1 := by
  rw [pow64] at h2 ⊢
  have he : m + (18446744073709551616 - 1) = (m - 1) + 1 * 18446744073709551616 := by omega
  rw [he, Nat.add_mul_mod_self_right, Nat.mod_eq_of_lt (by omega)]

/-- The spawn loop produces exactly the per-index children, with
`child_num` equal to the spawn index. -/
theorem spawnChildren_eq (n s : Nat) :
    spawnChildren n s = (List.range n).map (childAt n s) := by
  have key : ∀ (f g : Nat → Nat) (m : Nat),
      (List.range m).foldl (fun lst i => addChild lst (f i) (g i)) [] =
        (List.range m).map (fun i => (⟨i, storeU64ViaInt (f i), storeU64ViaInt (g i)⟩ : ChildInfo)) := by
    intro f g m
    induction m with
    | zero => rfl
    | succ m ih =>
        rw [List.range_succ, List.foldl_append, ih, List.map_append]
        simp [addChild]
  exact key (mainSeekTo s) (mainReadTo n s) n

/-- Unfolded behaviour of the coordinator loop over an event list that is
no longer than the number of pending workers (true of every actual run:
each of the `waiting_for` pipes fires exactly once): the accepted events
are exactly those with a positive byte count; their sums accumulate, each
produces one report line, and each decrements `waiting_for`. -/
theorem coordRun_fold (evs : List ReadEvent) : ∀ (st : CoordState),
    evs.length ≤ st.waiting_for →
    (evs.foldl coordStep st).final_sum
        = st.final_sum + ((evs.filter posRead).map (fun e => e.res.sum)).sum ∧
    (evs.foldl coordStep st).waiting_for
        = st.waiting_for - (evs.filter posRead).length ∧
    (evs.foldl coordStep st).output
        = st.output ++ (evs.filter posRead).map (fun e => childLine e.res) := by
  induction evs with
  | nil => intro st _; simp
  | cons ev rest ih =>
      intro st hle
      simp only [List.length_cons] at hle
      have hw : ¬ st.waiting_for = 0 := by omega
      by_cases hb : (0 : Int) < ev.bytes
      · have hstep : coordStep st ev =
            ⟨st.final_sum + ev.res.sum, st.waiting_for - 1, st.output ++ [childLine ev.res]⟩ := by
          simp [coordStep, hw, hb]
        obtain ⟨h1, h2, h3⟩ :=
          ih ⟨st.final_sum + ev.res.sum, st.waiting_for - 1, st.output ++ [childLine ev.res]⟩
            (by simp; omega)
        rw [List.foldl_cons, hstep]
        refine ⟨?_, ?_, ?_⟩
        · rw [h1]
          simp [List.filter_cons, posRead, hb]
          omega
        · rw [h2]
          simp [List.filter_cons, posRead, hb]
          omega
        · rw [h3]
          simp [List.filter_cons, posRead, hb]
      · have hstep : coordStep st ev = st := by
          simp [coordStep, hw, hb]
        obtain ⟨h1, h2, h3⟩ := ih st (by omega)
        rw [List.foldl_cons, hstep]
        refine ⟨?_, ?_, ?_⟩
        · rw [h1]; simp [List.filter_cons, posRead, hb]
        · rw [h2]; simp [List.filter_cons, posRead, hb]
        · rw [h3]; simp [List.filter_cons, posRead, hb]

/-- One coordinator step never increases `waiting_for`. -/
theorem coordStep_waiting_le (st : CoordState) (ev : ReadEvent) :
    (coordStep st ev).waiting_for ≤ st.waiting_for := by
  unfold coordStep
  split
  · exact le_rfl
  · split
    · simp
    · exact le_rfl

/-- Over any further events, `waiting_for` never increases. -/
theorem coordFold_waiting_le (evs : List ReadEvent) : ∀ (st : CoordState),
    (evs.foldl coordStep st).waiting_for ≤ st.waiting_for := by
  induction evs with
  | nil => intro st; exact le_rfl
  | cons ev rest ih =>
      intro st
      calc (rest.foldl coordStep (coordStep st ev)).waiting_for
          ≤ (coordStep st ev).waiting_for := ih _
        _ ≤ st.waiting_for := coordStep_waiting_le st ev

theorem digitsOf_append (xs ys : List Nat) :
    digitsOf (xs ++ ys) = digitsOf xs ++ digitsOf ys := by
  simp [digitsOf, List.filter_append]

/-- Splitting the group sum at a multiple of three digits. -/
theorem groupSum_append : ∀ (xs ys : List Nat), xs.length % 3 = 0 →
    groupSum (xs ++ ys) = groupSum xs + groupSum ys := by
  have fuel : ∀ (n : Nat) (xs ys : List Nat), xs.length ≤ n → xs.length % 3 = 0 →
      groupSum (xs ++ ys) = groupSum xs + groupSum ys := by
    intro n
    induction n with
    | zero =>
        intro xs ys hle _
        have hnil : xs = [] := List.length_eq_zero.mp (Nat.le_zero.mp hle)
        rw [hnil]
        simp [groupSum]
    | succ n ih =>
        intro xs ys hle hmod
        rcases xs with _ | ⟨a, _ | ⟨b, _ | ⟨c, rest⟩⟩⟩
        · simp [groupSum]
        · simp only [List.length_cons, List.length_nil] at hmod
          omega
        · simp only [List.length_cons, List.length_nil] at hmod
          omega
        · have hle2 : rest.length ≤ n := by
            simp only [List.length_cons] at hle
            omega
          have hmod2 : rest.length % 3 = 0 := by
            simp only [List.length_cons] at hmod
            omega
          simp only [List.cons_append, groupSum_cons3]
          rw [ih rest ys hle2 hmod2]
          omega
  intro xs ys hmod
  exact fuel xs.length xs ys le_rfl hmod

/-- When every internal chunk boundary falls on a completed 3-digit group
(the cumulative digit count before each boundary is a multiple of three),
scanning the concatenation equals summing the per-chunk scans. -/
theorem chunks_no_straddle : ∀ (chunks : List (List Nat)),
    (∀ k, k < chunks.length → (digitsOf ((chunks.take k).flatten)).length % 3 = 0) →
    scanSum chunks.flatten = (chunks.map scanSum).sum := by
  intro chunks
  induction chunks with
  | nil => intro _; simp [scanSum, scanFold]
  | cons ch rest ih =>
      intro h
      rcases rest with _ | ⟨r2, rs⟩
      · simp
      · have hch : (digitsOf ch).length % 3 = 0 := by
          have h1 := h 1 (by simp only [List.length_cons]; omega)
          simpa using h1
        have hrest : ∀ k, k < (r2 :: rs).length →
            (digitsOf (((r2 :: rs).take k).flatten)).length % 3 = 0 := by
          intro k hk
          simp only [List.length_cons] at hk
          have h2 := h (k + 1) (by simp only [List.length_cons]; omega)
          rw [List.take_succ_cons, List.flatten_cons, digitsOf_append,
            List.length_append] at h2
          omega
        have hjoin : scanSum ((ch :: r2 :: rs).flatten)
            = scanSum ch + scanSum ((r2 :: rs).flatten) := by
          rw [List.flatten_cons, scanSum_eq_spec, scanSum_eq_spec ch,
            scanSum_eq_spec ((r2 :: rs).flatten)]
          unfold specScanSum
          rw [digitsOf_append, groupSum_append _ _ hch]
        rw [hjoin, ih hrest]
        simp

/-! ### Claims -/

/-- C6: for every byte sequence, a single worker's computed sum equals the
reference scan — digits are collected in order into the 3-slot buffer
regardless of intervening non-digit bytes, each completed 3-digit group is
parsed as an unsigned decimal (leading zeros permitted) and added with the
counter reset, and a partially filled group at end of input contributes
nothing; in particular "abc123def456" sums to 579 and "12 3" sums to
123. -/
theorem C6_worker_scan :
    (∀ bytes : List Nat, scanSum bytes = specScanSum bytes) ∧
    scanSum (strBytes "abc123def456") = 579 ∧
    scanSum (strBytes "12 3") = 123 :=
  ⟨scanSum_eq_spec, by decide, by decide⟩

/-- C7 counterexample: the claim's concrete scenario is wrong about the
code.  On input "000111222333" split 6/6 by the partitioner (child count
2, block size 12/2 = 6), worker 1 scans "222333" and sums 222 + 333 =
555, not 333, and the final sum is 666, not 444 (it does still equal the
single-pass sum 666).  The claimed worker sum 333 and final sum 444 are
therefore false of the code. -/
theorem C7_counterexample :
    childBytes (strBytes "000111222333")
        (childAt (mainChildCount 12 0 2) (mainBlockSize 12 0 2) 1) = strBytes "222333" ∧
    (handle_file_result (strBytes "000111222333")
        (childAt (mainChildCount 12 0 2) (mainBlockSize 12 0 2) 1)).sum = 555 ∧
    ¬ (handle_file_result (strBytes "000111222333")
        (childAt (mainChildCount 12 0 2) (mainBlockSize 12 0 2) 1)).sum = 333 ∧
    (coordRun 2 (fullRecordEvents
        ((spawnChildren (mainChildCount 12 0 2) (mainBlockSize 12 0 2)).map
          (handle_file_result (strBytes "000111222333"))))).final_sum = 666 ∧
    ¬ (coordRun 2 (fullRecordEvents
        ((spawnChildren (mainChildCount 12 0 2) (mainBlockSize 12 0 2)).map
          (handle_file_result (strBytes "000111222333"))))).final_sum = 444 ∧
    scanSum (strBytes "000111222333") = 666 := by decide

/-- C7 (amended): for every input and every partition into chunks such
that no 3-digit group straddles a chunk boundary (the cumulative digit
count before each boundary is a multiple of 3), the sum of the per-chunk
worker scans equals the single-pass whole-input scan, and a coordinator
run that receives one full record per chunk carrying these sums terminates
with exactly that single-pass sum as its final sum.  (In the claim's
scenario, input "000111222333" split 6/6, the worker sums are 111 and 555
and the final sum is 666 — not 333 and 444 — still equal to the
single-pass sum.) -/
theorem C7_no_straddle_equiv (chunks : List (List Nat)) (rs : List ChildResult)
    (hb : ∀ k, k < chunks.length → (digitsOf ((chunks.take k).flatten)).length % 3 = 0)
    (hrs : rs.map ChildResult.sum = chunks.map scanSum) :
    (chunks.map scanSum).sum = scanSum chunks.flatten ∧
    coordTerminates chunks.length (fullRecordEvents rs) ∧
    (coordRun chunks.length (fullRecordEvents rs)).final_sum = scanSum chunks.flatten := by
  have hsum := chunks_no_straddle chunks hb
  have hlen : rs.length = chunks.length := by
    have := congrArg List.length hrs
    simpa using this
  have hflen : (fullRecordEvents rs).length = chunks.length := by
    simp [fullRecordEvents, hlen]
  obtain ⟨h1, h2, _⟩ := coordRun_fold (fullRecordEvents rs) ⟨0, chunks.length, []⟩
    (by rw [hflen])
  have hfilter : (fullRecordEvents rs).filter posRead = fullRecordEvents rs := by
    apply List.filter_eq_self.mpr
    intro e he
    simp [fullRecordEvents] at he
    obtain ⟨r, _, hr⟩ := he
    simp [posRead, ← hr, resultRecordSize]
  refine ⟨hsum.symm, ?_, ?_⟩
  · unfold coordTerminates coordRun
    rw [h2, hfilter]
    dsimp only
    rw [hflen]
    omega
  · unfold coordRun
    rw [h1, hfilter]
    have hmap : (fullRecordEvents rs).map (fun e => e.res.sum) = chunks.map scanSum := by
      rw [fullRecordEvents, List.map_map]
      rw [show ((fun e : ReadEvent => e.res.sum) ∘ fun r => (⟨(resultRecordSize : Int), r⟩ : ReadEvent))
            = ChildResult.sum from rfl]
      exact hrs
    rw [hmap, hsum]
    dsimp only
    omega

/-- C7 witness: the (corrected) scenario instance — two chunks "000111"
and "222333", records carrying the actual worker sums 111 and 555, as
produced by the real spawned children over "000111222333". -/
theorem C7_witness :
    ((∀ k, k < ([strBytes "000111", strBytes "222333"] : List (List Nat)).length →
        (digitsOf ((([strBytes "000111", strBytes "222333"] : List (List Nat)).take k).flatten)).length % 3 = 0) ∧
      ([⟨0, 111⟩, ⟨1, 555⟩] : List ChildResult).map ChildResult.sum
        = ([strBytes "000111", strBytes "222333"] : List (List Nat)).map scanSum) ∧
    ((([strBytes "000111", strBytes "222333"] : List (List Nat)).map scanSum).sum
        = scanSum ([strBytes "000111", strBytes "222333"] : List (List Nat)).flatten ∧
      coordTerminates 2 (fullRecordEvents [⟨0, 111⟩, ⟨1, 555⟩]) ∧
      (coordRun 2 (fullRecordEvents [⟨0, 111⟩, ⟨1, 555⟩])).final_sum
        = scanSum ([strBytes "000111", strBytes "222333"] : List (List Nat)).flatten) ∧
    ((spawnChildren (mainChildCount 12 0 2) (mainBlockSize 12 0 2)).map
        (handle_file_result (strBytes "000111222333")) = [⟨0, 111⟩, ⟨1, 555⟩] ∧
      ([strBytes "000111", strBytes "222333"] : List (List Nat)).flatten
        = strBytes "000111222333") :=
  ⟨⟨by decide, by decide⟩,
    C7_no_straddle_equiv [strBytes "000111", strBytes "222333"] [⟨0, 111⟩, ⟨1, 555⟩]
      (by decide) (by decide),
    by decide, by decide⟩

/-- C1 counterexample: the claim is false of the code.  With 3 workers,
where worker 1's channel closes having delivered zero bytes, the `else`
branch of the coordinator (line 576-578) deregisters the channel but does
NOT decrement `waiting_for`: after all three channels have fired,
`waiting_for` is still 1, so the loop never reaches `pendingCount == 0`
and blocks forever in `epoll_wait` — it does not terminate as claimed.
(The failed worker does contribute 0 to the accumulated sum.) -/
theorem C1_counterexample :
    ¬ coordTerminates 3 [⟨16, ⟨0, 10⟩⟩, ⟨0, ⟨1, 0⟩⟩, ⟨16, ⟨2, 4⟩⟩] ∧
    (coordRun 3 [⟨16, ⟨0, 10⟩⟩, ⟨0, ⟨1, 0⟩⟩, ⟨16, ⟨2, 4⟩⟩]).waiting_for = 1 ∧
    (coordRun 3 [⟨16, ⟨0, 10⟩⟩, ⟨0, ⟨1, 0⟩⟩, ⟨16, ⟨2, 4⟩⟩]).final_sum = 14 := by decide

/-- C1 (amended): for every run in which some worker's channel closes
having delivered zero bytes (or errors), the coordinator deregisters that
channel without adding anything to `totalSum` and WITHOUT decrementing
`pendingCount`; with one event per worker, `pendingCount` therefore never
reaches 0 and the coordinator loop does not terminate (it blocks forever
in the readiness wait).  The failed worker contributes 0 to the
accumulated sum: the accumulated sum is exactly the sum of the
successfully delivered records. -/
theorem C1_failed_worker_stalls (n : Nat) (evs : List ReadEvent)
    (hlen : evs.length = n) (hfail : ∃ e ∈ evs, e.bytes ≤ 0) :
    (coordRun n evs).waiting_for ≠ 0 ∧
    ¬ coordTerminates n evs ∧
    (coordRun n evs).final_sum = ((evs.filter posRead).map (fun e => e.res.sum)).sum := by
  obtain ⟨h1, h2, _⟩ := coordRun_fold evs ⟨0, n, []⟩ (by simp [hlen])
  obtain ⟨e, hem, hez⟩ := hfail
  obtain ⟨l1, l2, hsplit⟩ := List.append_of_mem hem
  have hflt : (evs.filter posRead).length < evs.length := by
    rw [hsplit, List.filter_append, List.filter_cons]
    have hneg : posRead e = false := by
      simp [posRead]
      omega
    rw [hneg]
    simp only [Bool.false_eq_true, if_false, List.length_append, List.length_cons]
    have ha := List.length_filter_le posRead l1
    have hb := List.length_filter_le posRead l2
    omega
  have hw : (coordRun n evs).waiting_for ≠ 0 := by
    unfold coordRun
    rw [h2]
    dsimp only
    omega
  refine ⟨hw, fun hterm => hw hterm, ?_⟩
  unfold coordRun
  rw [h1]
  dsimp only
  omega

/-- C1 witness: two workers, worker 0 delivers a full record with sum 5,
worker 1's channel closes empty; the loop is left with `waiting_for = 1`
and the accumulated sum is 5 (the failed worker contributed 0). -/
theorem C1_witness :
    (([⟨16, ⟨0, 5⟩⟩, ⟨0, ⟨1, 0⟩⟩] : List ReadEvent).length = 2 ∧
      ∃ e ∈ ([⟨16, ⟨0, 5⟩⟩, ⟨0, ⟨1, 0⟩⟩] : List ReadEvent), e.bytes ≤ 0) ∧
    ((coordRun 2 [⟨16, ⟨0, 5⟩⟩, ⟨0, ⟨1, 0⟩⟩]).waiting_for ≠ 0 ∧
      ¬ coordTerminates 2 [⟨16, ⟨0, 5⟩⟩, ⟨0, ⟨1, 0⟩⟩] ∧
      (coordRun 2 [⟨16, ⟨0, 5⟩⟩, ⟨0, ⟨1, 0⟩⟩]).final_sum
        = ((([⟨16, ⟨0, 5⟩⟩, ⟨0, ⟨1, 0⟩⟩] : List ReadEvent).filter posRead).map
            (fun e => e.res.sum)).sum) :=
  ⟨⟨by decide, by decide⟩,
    C1_failed_worker_stalls 2 [⟨16, ⟨0, 5⟩⟩, ⟨0, ⟨1, 0⟩⟩] (by decide) (by decide)⟩

/-- C2 counterexample: the claim is false of the code.  On a read
returning 4 bytes (more than zero, fewer than the 16-byte record), the
coordinator takes the `bytes > 0` branch (line 567): the partial buffer IS
interpreted as a record — its sum field (here 7, indeterminate stack
memory in the real program) is added to `totalSum`, a per-worker report
line IS emitted, and the worker is counted as accounted for
(`waiting_for` drops to 0), not treated as failed. -/
theorem C2_counterexample :
    (coordStep ⟨0, 1, []⟩ ⟨4, ⟨0, 7⟩⟩).final_sum = 7 ∧
    (coordStep ⟨0, 1, []⟩ ⟨4, ⟨0, 7⟩⟩).waiting_for = 0 ∧
    (coordStep ⟨0, 1, []⟩ ⟨4, ⟨0, 7⟩⟩).output = ["Child 0 Sum: 7"] ∧
    ((4 : Int) < resultRecordSize ∧ (0 : Int) < 4) := by decide

/-- C2 (amended): a read yielding more than zero but fewer than
`sizeof(struct child_result)` bytes is handled exactly like a full read —
the (partially overwritten, partially indeterminate) `result` struct is
interpreted as a record: its sum is added to `totalSum`, a per-worker
report line is emitted for it, and `pendingCount` is decremented.  The
partial data is not discarded and the worker is not treated as failed. -/
theorem C2_short_read_success (st : CoordState) (ev : ReadEvent)
    (h1 : 0 < ev.bytes) (h2 : ev.bytes < (resultRecordSize : Int))
    (h3 : st.waiting_for ≠ 0) :
    coordStep st ev =
      ⟨st.final_sum + ev.res.sum, st.waiting_for - 1, st.output ++ [childLine ev.res]⟩ := by
  simp [coordStep, h3, h1]

/-- C2 witness: a 4-byte short read carrying garbage sum 7 against a fresh
2-worker state is accepted as a success. -/
theorem C2_witness :
    ((0 : Int) < (⟨4, ⟨0, 7⟩⟩ : ReadEvent).bytes ∧
      (⟨4, ⟨0, 7⟩⟩ : ReadEvent).bytes < (resultRecordSize : Int) ∧
      (⟨0, 2, []⟩ : CoordState).waiting_for ≠ 0) ∧
    coordStep ⟨0, 2, []⟩ ⟨4, ⟨0, 7⟩⟩ =
      ⟨(⟨0, 2, []⟩ : CoordState).final_sum + (⟨4, ⟨0, 7⟩⟩ : ReadEvent).res.sum,
        (⟨0, 2, []⟩ : CoordState).waiting_for - 1,
        (⟨0, 2, []⟩ : CoordState).output ++ [childLine (⟨4, ⟨0, 7⟩⟩ : ReadEvent).res]⟩ :=
  ⟨⟨by decide, by decide, by decide⟩,
    C2_short_read_success ⟨0, 2, []⟩ ⟨4, ⟨0, 7⟩⟩ (by decide) (by decide) (by decide)⟩

/-- C9 counterexample: the second invariant of the claim — `totalSum` only
ever increased by sums from successfully-read records — is false of the
code.  A read returning 4 of the 16 record bytes is not a successful
record read (spec sections 4.3/4.5 class short reads as failures), yet the
coordinator increases `totalSum` by the sum field of the partially
overwritten struct. -/
theorem C9_counterexample :
    (coordStep ⟨0, 2, []⟩ ⟨4, ⟨1, 9⟩⟩).final_sum = 9 ∧
    ¬ (coordStep ⟨0, 2, []⟩ ⟨4, ⟨1, 9⟩⟩).final_sum = (⟨0, 2, []⟩ : CoordState).final_sum ∧
    ¬ (⟨4, ⟨1, 9⟩⟩ : ReadEvent).bytes = (resultRecordSize : Int) := by decide

/-- C9 (amended): throughout every run of the coordinator loop,
`pendingCount` is monotonically non-increasing (per step and over any
trace extension, hence bounded by its initial value `workerCount`);
`totalSum` is only ever increased, and it increases exactly by the record
sum of a read yielding a positive byte count — including short reads,
which the code does not distinguish from full ones; and every `workerId`
in `[0, workerCount)` is assigned to exactly one range and one child
handle (the spawn loop produces exactly the children `childAt n s i` for
`i = 0, …, n-1`, in order, so ids are distinct and exhaustive and each id
carries exactly one stored range). -/
theorem C9_invariants_amended :
    (∀ (st : CoordState) (ev : ReadEvent),
      (coordStep st ev).waiting_for ≤ st.waiting_for) ∧
    (∀ (n : Nat) (pre suf : List ReadEvent),
      (coordRun n (pre ++ suf)).waiting_for ≤ (coordRun n pre).waiting_for ∧
      (coordRun n pre).waiting_for ≤ n) ∧
    (∀ (st : CoordState) (ev : ReadEvent),
      (coordStep st ev).final_sum
        = st.final_sum + (if st.waiting_for ≠ 0 ∧ 0 < ev.bytes then ev.res.sum else 0)) ∧
    (∀ (n s : Nat), spawnChildren n s = (List.range n).map (childAt n s)) := by
  refine ⟨coordStep_waiting_le, ?_, ?_, spawnChildren_eq⟩
  · intro n pre suf
    constructor
    · unfold coordRun
      rw [List.foldl_append]
      exact coordFold_waiting_le suf _
    · have h := coordFold_waiting_le pre ⟨0, n, []⟩
      exact h
  · intro st ev
    unfold coordStep
    by_cases h0 : st.waiting_for = 0
    · simp [h0]
    · by_cases hb : (0 : Int) < ev.bytes
      · simp [h0, hb]
      · simp [h0, hb]

/-- C10: for a fixed set of successfully delivered worker records (one
full record per worker), the final reported sum is independent of the
order in which the coordinator receives them: any two arrival orders that
are permutations of one another terminate and report the same final sum
(the aggregate depends only on the multiset of per-worker sums). -/
theorem C10_order_independent (n : Nat) (evs evs2 : List ReadEvent)
    (hperm : evs.Perm evs2) (hlen : evs.length = n)
    (hall : ∀ e ∈ evs, (0 : Int) < e.bytes) :
    coordTerminates n evs ∧ coordTerminates n evs2 ∧
    (coordRun n evs).final_sum = (coordRun n evs2).final_sum := by
  have hall2 : ∀ e ∈ evs2, (0 : Int) < e.bytes := fun e he => hall e (hperm.mem_iff.mpr he)
  have hlen2 : evs2.length = n := by rw [← hperm.length_eq]; exact hlen
  obtain ⟨h1, h2, _⟩ := coordRun_fold evs ⟨0, n, []⟩ (by simp [hlen])
  obtain ⟨h1b, h2b, _⟩ := coordRun_fold evs2 ⟨0, n, []⟩ (by simp [hlen2])
  have hf : evs.filter posRead = evs := by
    apply List.filter_eq_self.mpr
    intro e he
    simpa [posRead] using hall e he
  have hfb : evs2.filter posRead = evs2 := by
    apply List.filter_eq_self.mpr
    intro e he
    simpa [posRead] using hall2 e he
  refine ⟨?_, ?_, ?_⟩
  · unfold coordTerminates coordRun
    rw [h2, hf]
    dsimp only
    omega
  · unfold coordTerminates coordRun
    rw [h2b, hfb]
    dsimp only
    omega
  · unfold coordRun
    rw [h1, h1b, hf, hfb]
    dsimp only
    have hps : (evs.map (fun e => e.res.sum)).sum = (evs2.map (fun e => e.res.sum)).sum :=
      (hperm.map (fun e => e.res.sum)).sum_eq
    omega

/-- C10 witness: two full records delivered in the two possible orders
yield the same final sum 3, and both runs terminate. -/
theorem C10_witness :
    (([⟨16, ⟨0, 1⟩⟩, ⟨16, ⟨1, 2⟩⟩] : List ReadEvent).Perm [⟨16, ⟨1, 2⟩⟩, ⟨16, ⟨0, 1⟩⟩] ∧
      ([⟨16, ⟨0, 1⟩⟩, ⟨16, ⟨1, 2⟩⟩] : List ReadEvent).length = 2 ∧
      ∀ e ∈ ([⟨16, ⟨0, 1⟩⟩, ⟨16, ⟨1, 2⟩⟩] : List ReadEvent), (0 : Int) < e.bytes) ∧
    (coordTerminates 2 [⟨16, ⟨0, 1⟩⟩, ⟨16, ⟨1, 2⟩⟩] ∧
      coordTerminates 2 [⟨16, ⟨1, 2⟩⟩, ⟨16, ⟨0, 1⟩⟩] ∧
      (coordRun 2 [⟨16, ⟨0, 1⟩⟩, ⟨16, ⟨1, 2⟩⟩]).final_sum
        = (coordRun 2 [⟨16, ⟨1, 2⟩⟩, ⟨16, ⟨0, 1⟩⟩]).final_sum) :=
  ⟨⟨by decide, by decide, by decide⟩,
    C10_order_independent 2 [⟨16, ⟨0, 1⟩⟩, ⟨16, ⟨1, 2⟩⟩] [⟨16, ⟨1, 2⟩⟩, ⟨16, ⟨0, 1⟩⟩]
      (by decide) (by decide) (by decide)⟩

/-- C4 counterexample: the claim is false of the code's line format.  The
per-worker report line is printed as `"Child %d Sum: %lu"`, not
`"Worker <id> Sum: <sum>"`: a successful single-worker run over a 12-byte
file whose worker reports sum 579 outputs the line "Child 0 Sum: 579",
and no line of the run reads "Worker 0 Sum: 579" as the claim requires.
(The "File size" and "Final Sum" lines are as claimed.) -/
theorem C4_counterexample :
    runStdout false 12 1 [⟨16, ⟨0, 579⟩⟩]
      = ["File size: 12", "Child 0 Sum: 579", "Final Sum: 579"] ∧
    ¬ "Worker 0 Sum: 579" ∈ runStdout false 12 1 [⟨16, ⟨0, 579⟩⟩] := by decide

/-- C4 (amended): for every successful run (one full record delivered per
worker), the core emits exactly one line per worker of the form
`"Child <id> Sum: <sum>"` — not `"Worker <id> Sum: <sum>"` — followed by
exactly one line `"Final Sum: <sum>"`, and, when the input is a seekable
file, a line `"File size: <L>"` precedes all worker output; for stdin no
file-size line is emitted. -/
theorem C4_output_format (stdinSrc : Bool) (L n : Nat) (evs : List ReadEvent)
    (hlen : evs.length = n) (hall : ∀ e ∈ evs, e.bytes = (resultRecordSize : Int)) :
    runStdout stdinSrc L n evs =
      (if stdinSrc then [] else ["File size: " ++ toString L]) ++
        evs.map (fun e => childLine e.res) ++
        ["Final Sum: " ++ toString ((evs.map (fun e => e.res.sum)).sum)] := by
  obtain ⟨h1, h2, h3⟩ := coordRun_fold evs ⟨0, n, []⟩ (by simp [hlen])
  have hf : evs.filter posRead = evs := by
    apply List.filter_eq_self.mpr
    intro e he
    have hb := hall e he
    simp [posRead, hb, resultRecordSize]
  unfold runStdout coordRun
  rw [h1, h2, h3, hf]
  dsimp only
  rw [hlen]
  simp

/-- C4 witness: a successful two-worker file run produces the file-size
line, one Child line per worker, and one Final Sum line, in order. -/
theorem C4_witness :
    (([⟨16, ⟨0, 111⟩⟩, ⟨16, ⟨1, 555⟩⟩] : List ReadEvent).length = 2 ∧
      ∀ e ∈ ([⟨16, ⟨0, 111⟩⟩, ⟨16, ⟨1, 555⟩⟩] : List ReadEvent),
        e.bytes = (resultRecordSize : Int)) ∧
    runStdout false 12 2 [⟨16, ⟨0, 111⟩⟩, ⟨16, ⟨1, 555⟩⟩] =
      (if false then [] else ["File size: " ++ toString 12]) ++
        ([⟨16, ⟨0, 111⟩⟩, ⟨16, ⟨1, 555⟩⟩] : List ReadEvent).map (fun e => childLine e.res) ++
        ["Final Sum: " ++
          toString ((([⟨16, ⟨0, 111⟩⟩, ⟨16, ⟨1, 555⟩⟩] : List ReadEvent).map
            (fun e => e.res.sum)).sum)] :=
  ⟨⟨by decide, by decide⟩,
    C4_output_format false 12 2 [⟨16, ⟨0, 111⟩⟩, ⟨16, ⟨1, 555⟩⟩] (by decide) (by decide)⟩

/-- C3 counterexample: the claim is false of the code.  With a 5-byte
seekable input and `--block-size 10`, the computed worker count is
`5 / 10 = 0`; `main` performs no check (lines 519-526), spawns zero
workers, skips the coordinator loop, and completes normally — printing
the file-size line and "Final Sum: 0" — instead of aborting with a fatal
ConfigurationError before producing output. -/
theorem C3_counterexample :
    mainChildCount 5 10 1 = 0 ∧
    spawnChildren (mainChildCount 5 10 1) (mainBlockSize 5 10 1) = [] ∧
    coordTerminates (mainChildCount 5 10 1) [] ∧
    runStdout false 5 (mainChildCount 5 10 1) [] = ["File size: 5", "Final Sum: 0"] := by decide

/-- C3 (amended): an explicitly requested child count whose stored
`u_int16_t` value is zero is rejected at option-parsing time (`EINVAL`),
before any worker spawns; but a worker count COMPUTED as zero (a block
size larger than the file, `N = floor(L/S) = 0`) is not detected: the run
proceeds, spawns no workers, and completes normally with the file-size
line and "Final Sum: 0" — it is not aborted. -/
theorem C3_zero_workers_no_abort (L S : Nat) (hS : 0 < S) (hLS : L < S) :
    mainChildCount L S 1 = 0 ∧
    spawnChildren (mainChildCount L S 1) (mainBlockSize L S 1) = [] ∧
    runStdout false L (mainChildCount L S 1) []
      = ["File size: " ++ toString L, "Final Sum: 0"] ∧
    (∀ (o : ProgramOptions) (v : Int), o.used_block = false → v.emod 65536 = 0 →
      parse_child_count o v = Except.error ()) := by
  have hdiv : L / S = 0 := Nat.div_eq_of_lt hLS
  have hcc : mainChildCount L S 1 = 0 := by
    unfold mainChildCount
    rw [if_pos hS, hdiv]
  refine ⟨hcc, ?_, ?_, ?_⟩
  · rw [hcc]
    rfl
  · rw [hcc]
    unfold runStdout coordRun
    simp [List.foldl]
    decide
  · intro o v hub hv
    unfold parse_child_count
    rw [hub]
    simp [hv]

/-- C3 witness: the 5-byte-file, block-size-10 configuration computes zero
workers yet produces a complete normal run; and `-c 0` is rejected by the
parser. -/
theorem C3_witness :
    ((0 : Nat) < 10 ∧ (5 : Nat) < 10) ∧
    (mainChildCount 5 10 1 = 0 ∧
      spawnChildren (mainChildCount 5 10 1) (mainBlockSize 5 10 1) = [] ∧
      runStdout false 5 (mainChildCount 5 10 1) []
        = ["File size: " ++ toString 5, "Final Sum: 0"] ∧
      (∀ (o : ProgramOptions) (v : Int), o.used_block = false → v.emod 65536 = 0 →
        parse_child_count o v = Except.error ())) :=
  ⟨⟨by decide, by decide⟩, C3_zero_workers_no_abort 5 10 (by decide) (by decide)⟩

/-- C8: a non-seekable source (stdin) forces the effective worker count to
1 with a single open-ended range — block size is zeroed and any child
count above 1 is coerced to 1, the sizing then yields one child whose
stored `read_to` is the read-to-end sentinel, and the stdin child scans
the entire stream — while a non-fatal warning is emitted for each
overridden setting (one for a nonzero block size, one for a child count
above 1, none otherwise) and the run proceeds to completion. -/
theorem C8_stdin_single_worker (o : ProgramOptions) (hcc : 1 ≤ o.child_count) :
    (stdinAdjust o).child_count = 1 ∧
    (stdinAdjust o).block_size = 0 ∧
    (o.block_size ≠ 0 →
      ("Warn: using stdin... ignoring block size " ++ toString o.block_size ++ ".")
        ∈ stdinWarnings o) ∧
    (1 < o.child_count →
      ("Warn: using stdin... ignoring child count " ++ toString o.child_count ++ ".")
        ∈ stdinWarnings o) ∧
    (o.block_size = 0 → ¬ 1 < o.child_count → stdinWarnings o = []) ∧
    mainChildCount 0 (stdinAdjust o).block_size (stdinAdjust o).child_count = 1 ∧
    spawnChildren (mainChildCount 0 (stdinAdjust o).block_size (stdinAdjust o).child_count)
        (mainBlockSize 0 (stdinAdjust o).block_size (stdinAdjust o).child_count)
      = [⟨0, 0, 2 ^ 64 - 1⟩] ∧
    (∀ content : List Nat,
      handle_stdin_result content 0 = ⟨0, scanSum content⟩ ∧
      runStdout true 0 1 [⟨(resultRecordSize : Int), handle_stdin_result content 0⟩]
        = [childLine ⟨0, scanSum content⟩, "Final Sum: " ++ toString (scanSum content)]) := by
  have hadj_c : (stdinAdjust o).child_count = 1 := by
    show (if 1 < o.child_count then 1 else o.child_count) = 1
    split
    · rfl
    · omega
  have hadj_b : (stdinAdjust o).block_size = 0 := rfl
  refine ⟨hadj_c, hadj_b, ?_, ?_, ?_, ?_, ?_, ?_⟩
  · intro h
    unfold stdinWarnings
    simp [h]
  · intro h
    unfold stdinWarnings
    simp [h]
  · intro h1 h2
    unfold stdinWarnings
    simp [h1, h2]
  · rw [hadj_b, hadj_c]
    decide
  · rw [hadj_b, hadj_c]
    decide
  · intro content
    refine ⟨rfl, ?_⟩
    unfold runStdout coordRun
    simp [List.foldl, coordStep, handle_stdin_result, resultRecordSize]

/-- C8 witness: stdin with requested block size 7 and child count 3 — both
are overridden with one warning each, the run spawns the single
whole-stream child, and over the stream "abc123def456" it reports sum 579
and final sum 579. -/
theorem C8_witness :
    (1 ≤ (⟨3, 7, true, false⟩ : ProgramOptions).child_count) ∧
    ((stdinAdjust ⟨3, 7, true, false⟩).child_count = 1 ∧
      (stdinAdjust ⟨3, 7, true, false⟩).block_size = 0 ∧
      ((⟨3, 7, true, false⟩ : ProgramOptions).block_size ≠ 0 →
        ("Warn: using stdin... ignoring block size "
            ++ toString (⟨3, 7, true, false⟩ : ProgramOptions).block_size ++ ".")
          ∈ stdinWarnings ⟨3, 7, true, false⟩) ∧
      (1 < (⟨3, 7, true, false⟩ : ProgramOptions).child_count →
        ("Warn: using stdin... ignoring child count "
            ++ toString (⟨3, 7, true, false⟩ : ProgramOptions).child_count ++ ".")
          ∈ stdinWarnings ⟨3, 7, true, false⟩) ∧
      ((⟨3, 7, true, false⟩ : ProgramOptions).block_size = 0 →
        ¬ 1 < (⟨3, 7, true, false⟩ : ProgramOptions).child_count →
        stdinWarnings ⟨3, 7, true, false⟩ = []) ∧
      mainChildCount 0 (stdinAdjust ⟨3, 7, true, false⟩).block_size
          (stdinAdjust ⟨3, 7, true, false⟩).child_count = 1 ∧
      spawnChildren
          (mainChildCount 0 (stdinAdjust ⟨3, 7, true, false⟩).block_size
            (stdinAdjust ⟨3, 7, true, false⟩).child_count)
          (mainBlockSize 0 (stdinAdjust ⟨3, 7, true, false⟩).block_size
            (stdinAdjust ⟨3, 7, true, false⟩).child_count)
        = [⟨0, 0, 2 ^ 64 - 1⟩] ∧
      (∀ content : List Nat,
        handle_stdin_result content 0 = ⟨0, scanSum content⟩ ∧
        runStdout true 0 1 [⟨(resultRecordSize : Int), handle_stdin_result content 0⟩]
          = [childLine ⟨0, scanSum content⟩,
              "Final Sum: " ++ toString (scanSum content)])) :=
  ⟨by decide, C8_stdin_single_worker ⟨3, 7, true, false⟩ (by decide)⟩

theorem lt_succ_div_mul (p s : Nat) (hs : 0 < s) : p < (p / s + 1) * s := by
  have h1 := Nat.div_add_mod p s
  have h2 := Nat.mod_lt p hs
  calc p = s * (p / s) + p % s := h1.symm
    _ < s * (p / s) + s := by omega
    _ = (p / s + 1) * s := by ring

/-- Middle children (every child but the last) end up with exactly the
untruncated block boundaries `[i*s, (i+1)*s - 1]` when all offsets fit in
a signed 32-bit int. -/
theorem childAt_mid (n s i : Nat) (hs : 0 < s) (hi : i + 1 < n) (hb : n * s < 2 ^ 31) :
    childAt n s i = ⟨i, i * s, (i + 1) * s - 1⟩ := by
  have hle : (i + 1) * s ≤ n * s := Nat.mul_le_mul (by omega) (le_refl s)
  have hsk : i * s ≤ n * s := Nat.mul_le_mul (by omega) (le_refl s)
  have hpos : 0 < (i + 1) * s := Nat.mul_pos (by omega) hs
  have h3164 : (2 : Nat) ^ 31 < 2 ^ 64 := by rw [pow31, pow64]; omega
  unfold childAt mainSeekTo mainReadTo
  rw [if_neg (by omega : ¬ i + 1 = n)]
  rw [Nat.mod_eq_of_lt (by omega : i * s < 2 ^ 64)]
  rw [u64_sub_one ((i + 1) * s) hpos (by omega)]
  rw [storeU64ViaInt_id (i * s) (by omega), storeU64ViaInt_id ((i + 1) * s - 1) (by omega)]

/-- The last child ends up with its untruncated seek offset and the
read-to-end sentinel. -/
theorem childAt_last (n s : Nat) (hn : 1 ≤ n) (hb : (n - 1) * s < 2 ^ 31) :
    childAt n s (n - 1) = ⟨n - 1, (n - 1) * s, 2 ^ 64 - 1⟩ := by
  have h3164 : (2 : Nat) ^ 31 < 2 ^ 64 := by rw [pow31, pow64]; omega
  unfold childAt mainSeekTo mainReadTo
  rw [if_pos (by omega : n - 1 + 1 = n)]
  rw [Nat.mod_eq_of_lt (by omega : (n - 1) * s < 2 ^ 64)]
  rw [storeU64ViaInt_id _ hb, storeU64ViaInt_sentinel]

/-- What a middle child scans: exactly the positions of its block. -/
theorem childScans_mid (L n s i p : Nat) (hs : 0 < s) (hi : i + 1 < n)
    (hb : n * s < 2 ^ 31) :
    childScans L (childAt n s i) p = true
      ↔ (i * s ≤ p ∧ p ≤ (i + 1) * s - 1 ∧ p < L) := by
  rw [childAt_mid n s i hs hi hb]
  unfold childScans scansPos effectiveReadTo
  dsimp only
  have hle : (i + 1) * s ≤ n * s := Nat.mul_le_mul (by omega) (le_refl s)
  have hsk' : i * s ≤ n * s := Nat.mul_le_mul (by omega) (le_refl s)
  have hne : ¬ (i + 1) * s - 1 = 2 ^ 64 - 1 := by
    rw [pow64]
    rw [pow31] at hb
    omega
  have hsk : i * s < 2 ^ 63 := by
    rw [pow63]
    rw [pow31] at hb
    omega
  rw [if_neg hne, if_pos hsk]
  simp

/-- What the last child scans: everything from its seek offset to EOF. -/
theorem childScans_last (L n s p : Nat) (hn : 1 ≤ n) (hb : (n - 1) * s < 2 ^ 31) :
    childScans L (childAt n s (n - 1)) p = true ↔ ((n - 1) * s ≤ p ∧ p < L) := by
  rw [childAt_last n s hn hb]
  unfold childScans scansPos effectiveReadTo
  dsimp only
  have hsk : (n - 1) * s < 2 ^ 63 := by
    rw [pow63]
    rw [pow31] at hb
    omega
  rw [if_pos rfl, if_pos hsk]
  simp
  omega

/-- C5 counterexample: the claim is false of the code for large (but
spec-legal, u64) inputs.  With a 4 GiB file (L = 2^32) and block size
2 GiB (S = 2^31), the effective worker count is N = L/S = 2 ≥ 1, and the
claim asserts the two ranges cover every position of [0, L).  But
`add_child`'s `int` parameters truncate child 1's seek offset 2^31 to the
sign-extended value 2^64 - 2^31 (and its `fseek` offset is negative), so
child 1 scans nothing: position 2^31 (< L) is read by NO child — the
ranges do not partition [0, L). -/
theorem C5_counterexample :
    4294967296 / 2147483648 = 2 ∧
    mainChildCount 4294967296 2147483648 1 = 2 ∧
    2147483648 < 4294967296 ∧
    ((spawnChildren (mainChildCount 4294967296 2147483648 1)
        (mainBlockSize 4294967296 2147483648 1)).all
      (fun ci => ! childScans 4294967296 ci 2147483648)) = true := by decide

/-- C5 (amended): for every seekable input of length 0 < L < 2^31 (so that
all offsets survive `add_child`'s int parameters) and every valid
effective worker count N ≥ 1 that also fits the u16 `child_count` field
(N < 65536) — with N = floor(L/S) when a block size S > 0 is given, else
N = C with C ≤ L — the N produced ranges are ascending and contiguous:
range i spans exactly [i*S, (i+1)*S - 1] for i < N-1, the last range
extends from (N-1)*S to end-of-stream, and every position of [0, L) is
scanned by exactly one child (no gap, no overlap; no child scans any
position ≥ L). -/
theorem C5_partition (L S C : Nat) (hL31 : L < 2 ^ 31) (hL0 : 0 < L)
    (hS : 0 < S → 1 ≤ L / S ∧ L / S < 65536)
    (hC : S = 0 → 1 ≤ C ∧ C < 65536 ∧ C ≤ L) :
    (0 < S → mainChildCount L S C = L / S) ∧
    (S = 0 → mainChildCount L S C = C) ∧
    (spawnChildren (mainChildCount L S C) (mainBlockSize L S C)).length
      = mainChildCount L S C ∧
    (∀ i, i + 1 < mainChildCount L S C →
      childAt (mainChildCount L S C) (mainBlockSize L S C) i
        = ⟨i, i * mainBlockSize L S C, (i + 1) * mainBlockSize L S C - 1⟩) ∧
    (childAt (mainChildCount L S C) (mainBlockSize L S C) (mainChildCount L S C - 1)
        = ⟨mainChildCount L S C - 1,
            (mainChildCount L S C - 1) * mainBlockSize L S C, 2 ^ 64 - 1⟩ ∧
      effectiveReadTo L (2 ^ 64 - 1) = L) ∧
    (∀ p, p < L → ∃ i, i < mainChildCount L S C ∧
      childScans L (childAt (mainChildCount L S C) (mainBlockSize L S C) i) p = true ∧
      ∀ j, j < mainChildCount L S C →
        childScans L (childAt (mainChildCount L S C) (mainBlockSize L S C) j) p = true →
        j = i) := by
  have hCC : (0 < S → mainChildCount L S C = L / S) ∧ (S = 0 → mainChildCount L S C = C) := by
    constructor
    · intro h0
      unfold mainChildCount
      rw [if_pos h0, Nat.mod_eq_of_lt (hS h0).2]
    · intro h0
      unfold mainChildCount
      rw [if_neg (by omega)]
  set N := mainChildCount L S C with hNdef
  set B := mainBlockSize L S C with hBdef
  have hN1 : 1 ≤ N := by
    by_cases h0 : 0 < S
    · rw [hCC.1 h0]; exact (hS h0).1
    · have h0' : S = 0 := by omega
      rw [hCC.2 h0']; exact (hC h0').1
  have hB1 : 0 < B := by
    by_cases h0 : 0 < S
    · rw [hBdef]; unfold mainBlockSize; rw [if_pos h0]; exact h0
    · have h0' : S = 0 := by omega
      rw [hBdef]; unfold mainBlockSize; rw [if_neg h0]
      exact Nat.div_pos (hC h0').2.2 (by have := (hC h0').1; omega)
  have hNB : N * B ≤ L := by
    by_cases h0 : 0 < S
    · rw [hCC.1 h0, hBdef]; unfold mainBlockSize; rw [if_pos h0]
      exact Nat.div_mul_le_self L S
    · have h0' : S = 0 := by omega
      rw [hCC.2 h0', hBdef]; unfold mainBlockSize; rw [if_neg h0]
      calc C * (L / C) = (L / C) * C := Nat.mul_comm _ _
        _ ≤ L := Nat.div_mul_le_self L C
  have hNB31 : N * B < 2 ^ 31 := lt_of_le_of_lt hNB hL31
  have hlastB : (N - 1) * B < 2 ^ 31 :=
    lt_of_le_of_lt (Nat.mul_le_mul (Nat.sub_le N 1) (le_refl B)) hNB31
  refine ⟨hCC.1, hCC.2, ?_, ?_, ?_, ?_⟩
  · rw [spawnChildren_eq]; simp
  · intro i hi
    exact childAt_mid N B i hB1 hi hNB31
  · refine ⟨childAt_last N B hN1 hlastB, ?_⟩
    unfold effectiveReadTo
    rw [if_pos rfl]
  · intro p hp
    have hmid : ∀ i, i + 1 < N →
        (childScans L (childAt N B i) p = true
          ↔ (i * B ≤ p ∧ p ≤ (i + 1) * B - 1 ∧ p < L)) :=
      fun i hi => childScans_mid L N B i p hB1 hi hNB31
    have hlast : childScans L (childAt N B (N - 1)) p = true
        ↔ ((N - 1) * B ≤ p ∧ p < L) :=
      childScans_last L N B p hN1 hlastB
    by_cases hc : p / B < N - 1
    · refine ⟨p / B, by omega, ?_, ?_⟩
      · rw [hmid (p / B) (by omega)]
        refine ⟨Nat.div_mul_le_self p B, ?_, hp⟩
        have hplt : p < (p / B + 1) * B := lt_succ_div_mul p B hB1
        omega
      · intro j hj hscan
        by_cases hj2 : j + 1 < N
        · rw [hmid j hj2] at hscan
          obtain ⟨ha, hb2, _⟩ := hscan
          have hjB : 0 < (j + 1) * B := Nat.mul_pos (by omega) hB1
          have hbb : p < (j + 1) * B := by omega
          have hdiv := Nat.div_eq_of_lt_le ha hbb
          omega
        · have hj3 : j = N - 1 := by omega
          rw [hj3, hlast] at hscan
          have := (Nat.le_div_iff_mul_le hB1).mpr hscan.1
          omega
    · refine ⟨N - 1, by omega, ?_, ?_⟩
      · rw [hlast]
        refine ⟨?_, hp⟩
        have h1 : N - 1 ≤ p / B := by omega
        calc (N - 1) * B ≤ (p / B) * B := Nat.mul_le_mul h1 (le_refl B)
          _ ≤ p := Nat.div_mul_le_self p B
      · intro j hj hscan
        by_cases hj2 : j + 1 < N
        · rw [hmid j hj2] at hscan
          obtain ⟨ha, hb2, _⟩ := hscan
          have hjB : 0 < (j + 1) * B := Nat.mul_pos (by omega) hB1
          have hbb : p < (j + 1) * B := by omega
          have hdiv := Nat.div_eq_of_lt_le ha hbb
          omega
        · omega

/-- C5 witness: a 12-byte file with two requested workers — block size
6, child 0 spans [0, 5], child 1 spans [6, end]; every position of
[0, 12) is scanned by exactly one child. -/
theorem C5_witness :
    ((12 : Nat) < 2 ^ 31 ∧ (0 : Nat) < 12 ∧
      ((0 : Nat) < 0 → 1 ≤ 12 / 0 ∧ 12 / 0 < 65536) ∧
      ((0 : Nat) = 0 → 1 ≤ 2 ∧ 2 < 65536 ∧ 2 ≤ 12)) ∧
    (∀ p, p < 12 → ∃ i, i < mainChildCount 12 0 2 ∧
      childScans 12 (childAt (mainChildCount 12 0 2) (mainBlockSize 12 0 2) i) p = true ∧
      ∀ j, j < mainChildCount 12 0 2 →
        childScans 12 (childAt (mainChildCount 12 0 2) (mainBlockSize 12 0 2) j) p = true →
        j = i) :=
  ⟨⟨by decide, by decide, by decide, by decide⟩,
    (C5_partition 12 0 2 (by decide) (by decide) (by decide) (by decide)).2.2.2.2.2⟩
